import Mathlib

/-!
A shallow embedding of the core of the `cracked` audio-graph library
(`src/dist/cracked.js`, `src/src/sequence.js`): the node registry and its
selector lookup table, the macro recorder, the connection resolver with
modulator routing, the one-shot reset lifecycle, and the step-sequencer
clock.  JS strings are Lean `String`, node uuids are `Nat`, JS objects
used as dictionaries are association lists, JS `undefined`/`null` is
`Option.none`, and host time (`AudioContext.currentTime`) is `Rat`.
-/

namespace Cracked

/-- JS `str.split(",")`, on the underlying character list:
`"a,b"` gives `["a","b"]`, `""` gives `[""]`, `"a,,b"` gives `["a","","b"]`. -/
def splitCommaChars : List Char → List (List Char)
  | [] => [[]]
  | c :: cs =>
    if c = ',' then [] :: splitCommaChars cs
    else
      match splitCommaChars cs with
      | [] => [[c]]
      | g :: gs => (c :: g) :: gs

/-- JS `str.split(",")` on a `String`. -/
def splitComma (s : String) : List String :=
  (splitCommaChars s.data).map (fun l => ⟨l⟩)

/-- Remove the first occurrence of the pattern `pat` from a character list:
the character-level semantics of JS `str.replace(pat, "")` for a plain
(non-regex) pattern. -/
def removeFirstSub (pat : List Char) : List Char → List Char
  | [] => []
  | c :: cs =>
    if pat.isPrefixOf (c :: cs) then (c :: cs).drop pat.length
    else c :: removeFirstSub pat cs

/-- JS `path.replace(".value", "")` from `getNodeToConnectToModulator`:
deletes the first occurrence of the substring `".value"`. -/
def stripValue (s : String) : String :=
  ⟨removeFirstSub ".value".data s.data⟩

/-- Index of the first occurrence of `x` (length of the list when absent);
used to state the first-occurrence ordering of de-duplicated results. -/
def firstIdx (x : Nat) : List Nat → Nat
  | [] => 0
  | y :: ys => if y = x then 0 else firstIdx x ys + 1

/-- Result of `getSelectorType`: JS returns the strings
`"class"` / `"id"` / `"type"`. -/
inductive SelType where
  | cls
  | idSel
  | typeSel
deriving DecidableEq

/-- `getSelectorType` (cracked.js:1827): a leading `.` means class, a
leading `#` means id, anything else is a type selector. -/
def getSelectorType (s : String) : SelType :=
  match s.data with
  | '.' :: _ => SelType.cls
  | '#' :: _ => SelType.idSel
  | _ => SelType.typeSel

/-- The lookup index `_nodeLookup`: a JS object mapping selector keys to
arrays of node uuids, modelled as an association list. -/
abbrev Table := List (String × List Nat)

/-- JS `_nodeLookup[key]` (reads `undefined` as `none`). -/
def tableGet (tbl : Table) (k : String) : Option (List Nat) :=
  (tbl.find? (fun e => e.1 == k)).map (fun e => e.2)

/-- `setter` (cracked.js:1967): pushes `value` onto the array at `key`,
creating a one-element array when the key is absent; a falsy (empty) key
is ignored. -/
def setter (tbl : Table) (key : String) (value : Nat) : Table :=
  if key = "" then tbl
  else
    match tableGet tbl key with
    | some _ => tbl.map (fun e => if e.1 == key then (e.1, e.2 ++ [value]) else e)
    | none => tbl ++ [(key, [value])]

/-- `arrayUnique` (cracked.js:1935) with explicit fuel: the splice loop
keeps the first occurrence of each element and removes all later
duplicates.  The fuel (the list length suffices) makes the recursion
structural so that the kernel can evaluate it. -/
def arrayUniqueAux : Nat → List Nat → List Nat
  | 0, _ => []
  | _, [] => []
  | fuel + 1, x :: xs => x :: arrayUniqueAux fuel (xs.filter (fun y => y != x))

/-- `arrayUnique` (cracked.js:1935): dedupe keeping first occurrences. -/
def arrayUnique (l : List Nat) : List Nat :=
  arrayUniqueAux l.length l

/-- The contribution of one selector clause inside `getNodesWithSelector`:
the raw lookup-table entry, truncated to its first element for an id
clause indexing more than one node; an empty clause or an unknown key
contributes nothing. -/
def clauseResult (tbl : Table) (c : String) : List Nat :=
  if c ≠ "" then
    match tableGet tbl c with
    | some tmp =>
      if getSelectorType c = SelType.idSel ∧ tmp.length > 1 then tmp.take 1 else tmp
    | none => []
  else []

/-- The body of the `forEach` loop of `getNodesWithSelector`
(cracked.js:1783): skip an empty clause or an unknown key
(`currSelector && _nodeLookup[currSelector]`), truncate an id clause's
entry to its first element, and accumulate with
`arrayUnique (nodes ++ tmp)`. -/
def selStep (tbl : Table) (nodes : List Nat) (currSelector : String) : List Nat :=
  if currSelector ≠ "" then
    match tableGet tbl currSelector with
    | some tmp =>
      let tmp' := if getSelectorType currSelector = SelType.idSel ∧ tmp.length > 1
                  then tmp.take 1 else tmp
      arrayUnique (nodes ++ tmp')
    | none => nodes
  else nodes

/-- The `forEach` loop of `getNodesWithSelector` as a fold over the
clause list, starting from an accumulator `N`. -/
def selFold (tbl : Table) (cs : List String) (N : List Nat) : List Nat :=
  cs.foldl (selStep tbl) N

/-- `getNodesWithSelector` (cracked.js:1780): split the selector on
commas, resolve each clause against `_nodeLookup` (ids truncated to the
first match), and accumulate with `arrayUnique (nodes ++ tmp)`. -/
def getNodesWithSelector (tbl : Table) (selector : String) : List Nat :=
  selFold tbl (splitComma selector) []

/-- The concatenation of the per-clause results of a selector, resolved
left to right: the reference point for the first-occurrence ordering of
`getNodesWithSelector`. -/
def clausesJoin (tbl : Table) (sel : String) : List Nat :=
  ((splitComma sel).map (clauseResult tbl)).flatten

/-! ### Sequencer clock (`src/src/sequence.js`) -/

/-- `checkup` (sequence.js:152, cracked.js:1604): given the host time
`now`, the current target `_loopTimeToNextStep` and `_loopInterval` (in
milliseconds), fire a step iff `now` lies strictly between
`target - interval/1000` and `target`; on firing the target advances by
`interval/1000`.  Returns the fired flag and the new target. -/
def checkup (now timeToNextStep interval : Rat) : Bool × Rat :=
  let timeAtPreviousStep := timeToNextStep - interval / 1000
  if now < timeToNextStep ∧ now > timeAtPreviousStep then
    (true, timeToNextStep + interval / 1000)
  else
    (false, timeToNextStep)

/-- A `_loopListeners` entry pushed by `cracked.bind` (sequence.js:200):
the callback is opaque and modelled by an id. -/
structure Listener where
  eventType : String
  callback : Nat
  data : List (Option Nat)
  selection : List Nat
  selector : String
deriving DecidableEq

/-- `cracked.unbind` (sequence.js:220, cracked.js:1657): for the `"step"`
event, rebuild `_loopListeners` keeping exactly the entries whose recorded
selector text differs from the active `_currentSelector`. -/
def crackedUnbind (eventType currentSelector : String) (loopListeners : List Listener) :
    List Listener :=
  if eventType = "step" then
    loopListeners.foldl
      (fun tmp el => if currentSelector ≠ el.selector then tmp ++ [el] else tmp) []
  else loopListeners

/-! ### Node model (cracked.js) -/

/-- JS truthiness of an optional string setting (`!!settings.modulates`):
absent or empty is falsy. -/
def truthyStr : Option String → Bool
  | none => false
  | some s => s != ""

/-- `resolveParamMapping` (cracked.js:988): look the name up in a mapping
table, falling back to the name itself.  A JS mapping entry is either a
bare path string or a `{path, fn}` record; only the path matters to
connection routing, so the table maps names to paths. -/
def resolveParamMapping (name : String) (mapping : List (String × String)) : String :=
  match mapping.find? (fun e => e.1 == name) with
  | some e => e.2
  | none => name

/-- A native (host) audio node handle: a leaf wraps one host primitive
with its named `AudioParam` properties (modelled as param ids) and an
optional attached sample buffer; a macro's native node is a JS array of
member handles.  Both carry the `uuid` tag the wrapper constructor
assigns (`nativeNode.uuid = uuid`, cracked.js:1090). -/
inductive NativeNode where
  | leaf (u : Nat) (props : List (String × Nat)) (buffer : Option Nat)
  | members (u : Nat) (elems : List NativeNode)

/-- The `uuid` tag of a native node. -/
def NativeNode.uuid : NativeNode → Nat
  | leaf u _ _ => u
  | members u _ => u

/-- JS property read `rawNode[prop]`: present on a leaf primitive when its
property table has the key; reading a named property off a JS array (a
macro's native node) gives `undefined`. -/
def NativeNode.prop : NativeNode → String → Option Nat
  | leaf _ props _, name => (props.find? (fun e => e.1 == name)).map (fun e => e.2)
  | members _ _, _ => none

/-- JS `nativeNode.buffer` (`undefined` on an array). -/
def NativeNode.buffer : NativeNode → Option Nat
  | leaf _ _ b => b
  | members _ _ => none

/-- The `nativeNode.uuid = uuid` assignment. -/
def NativeNode.setUuid : NativeNode → Nat → NativeNode
  | leaf _ p b, u => leaf u p b
  | members _ es, u => members u es

/-- The `nativeNode.buffer = saved_buffer` assignment (a no-op on an
array, which has no buffer slot). -/
def NativeNode.setBuffer : NativeNode → Nat → NativeNode
  | leaf u p _, b => leaf u p (some b)
  | members u es, _ => members u es

/-- `addNativeNode` (cracked.js:1343): push a member handle onto a
macro's member array (a no-op on a leaf, where JS would throw). -/
def NativeNode.pushMember : NativeNode → NativeNode → NativeNode
  | members u es, x => members u (es ++ [x])
  | leaf u p b, _ => leaf u p b

/-- `__.isArr(nativeNode)`. -/
def NativeNode.isArr : NativeNode → Bool
  | leaf _ _ _ => false
  | members _ _ => true

/-- The slice of `creationParams.settings` the core reads: the user id,
the class string, and the `modulates` declaration. -/
structure Settings where
  id : Option String := none
  className : Option String := none
  modulates : Option String := none
deriving DecidableEq

/-- A node's creation configuration (`creationParams`): the context
factory method name and the parameter-name mapping table, kept so that
`resetNode` can rebuild the primitive. -/
structure CreationParams where
  method : String := ""
  settings : Settings := {}
  mapping : List (String × String) := []
deriving DecidableEq

/-- The `AudioNode` wrapper (cracked.js:1069) as a record: the closure
variables become fields.  `prevNode` and `nextNode` hold wrapper
references, modelled by uuid; `macroContainerUUID` is the owning macro
and `macroNameSpace` the namespace fixed at macro close. -/
structure AudioNode where
  uuid : Nat
  nodeType : String
  parameters : CreationParams
  native : NativeNode
  prevNode : Option Nat := none
  nextNode : List Nat := []
  isPlaying : Bool := false
  macroContainerUUID : Option Nat := none
  macroNameSpace : String := ""

/-- `_nodeStore`: the master list of wrappers, keyed by uuid. -/
abbrev Store := List AudioNode

/-- `getNodeWithUUID` (cracked.js:1756) for a uuid key. -/
def getNodeWithUUID (store : Store) (uuid : Nat) : Option AudioNode :=
  store.find? (fun n => n.uuid == uuid)

/-- `getParamMapping` (cracked.js:1285): the `creationParams.mapping`
table. -/
def AudioNode.getParamMapping (n : AudioNode) : List (String × String) :=
  n.parameters.mapping

/-- `isMacro` (cracked.js:1219): the native node is an array. -/
def AudioNode.isMacroNode (n : AudioNode) : Bool :=
  n.native.isArr

/-- The owning macro's `settings.modulates`, read through the store
(`getNodeWithUUID(this.getMacroContainerUUID()).getParams().settings.modulates`);
`none` when the node has no owning macro (or, in an inconsistent store,
when the owner is missing — a state where the JS would throw). -/
def AudioNode.containerModulates (store : Store) (n : AudioNode) : Option String :=
  match n.macroContainerUUID with
  | some m =>
    match getNodeWithUUID store m with
    | some c => c.parameters.settings.modulates
    | none => none
  | none => none

/-- `isModulator` (cracked.js:1315): true when the owning macro declares a
truthy `settings.modulates`, else when this node itself does. -/
def AudioNode.isModulator (store : Store) (n : AudioNode) : Bool :=
  if truthyStr (n.containerModulates store) then true
  else truthyStr n.parameters.settings.modulates

/-- `isModulatorType` (cracked.js:1327): the parameter name the modulator
drives — the owning macro's truthy `modulates`, else the node's own, else
the empty string. -/
def AudioNode.isModulatorType (store : Store) (n : AudioNode) : String :=
  if n.isModulator store ∧ truthyStr (n.containerModulates store) then
    (n.containerModulates store).getD ""
  else if n.isModulator store then
    n.parameters.settings.modulates.getD ""
  else ""

/-- `areSiblings` (cracked.js:1307): the two nodes' owning-macro ids are
equal.  In JS two nodes with no owning macro compare
`undefined === undefined` and therefore count as siblings. -/
def AudioNode.areSiblings (n : AudioNode) (node : AudioNode) : Bool :=
  node.macroContainerUUID == n.macroContainerUUID

/-- What a connection endpoint resolves to: a native node handle or an
`AudioParam` control parameter. -/
inductive ConnTarget where
  | prim (n : NativeNode)
  | param (p : Nat)

/-- The `whichNode` argument of `getNodeToConnect`. -/
inductive Which where
  | fromSide
  | toSide
deriving DecidableEq

/-- `getNodeToConnect` (cracked.js:1455): resolve a wrapper to its
boundary primitive — for a macro, the last member on the `from` side and
the first member on the `to` side (no recursion into nested members); an
empty macro resolves to `undefined` and a null node to `null`. -/
def getNodeToConnect (node : Option AudioNode) (whichNode : Which) : Option NativeNode :=
  match node with
  | some n =>
    match n.native with
    | .leaf u p b => some (.leaf u p b)
    | .members _ es =>
      match whichNode with
      | .fromSide => es.getLast?
      | .toSide => es.head?
  | none => none

/-- The member loop of `getNodeToConnectToModulator` (cracked.js:1476):
walk the macro members in order; for each, resolve the parameter name
through that member wrapper's mapping table (the wrapper found in the
store by the member's uuid tag), strip `.value`, and stop at the first
member exposing the resolved property. -/
def findModParamInMembers (store : Store) (property : String) :
    List NativeNode → Option Nat
  | [] => none
  | m :: ms =>
    let mapping := match getNodeWithUUID store m.uuid with
      | some w => w.getParamMapping
      | none => []
    let resolvedProperty := stripValue (resolveParamMapping property mapping)
    match m.prop resolvedProperty with
    | some p => some p
    | none => findModParamInMembers store property ms

/-- `getNodeToConnectToModulator` (cracked.js:1471): for a macro target,
scan the members for the first one exposing the mapped property (the
`rawNode` falls through unchanged — the whole member array — when none
does); for a leaf target, map the parameter name through the node's own
mapping table, strip `.value`, and return that property of the primitive —
or `null` when the leaf does not expose it. -/
def getNodeToConnectToModulator (store : Store) (node : Option AudioNode)
    (property : String) : Option ConnTarget :=
  match node with
  | some n =>
    match n.native with
    | .members u es =>
      match findModParamInMembers store property es with
      | some p => some (.param p)
      | none => some (.prim (.members u es))
    | .leaf u pr b =>
      let resolvedProperty := stripValue (resolveParamMapping property n.getParamMapping)
      match (NativeNode.leaf u pr b).prop resolvedProperty with
      | some p => some (.param p)
      | none => none
  | none => none

/-- `getNodesToConnect` (cracked.js:1434): when the `from` node is a
modulator and the nodes are not siblings, the `to` side resolves to the
named control parameter; otherwise both sides resolve to boundary
primitives. -/
def getNodesToConnect (store : Store) (fromNode toNode : Option AudioNode) :
    Option NativeNode × Option ConnTarget :=
  match fromNode, toNode with
  | some f, some t =>
    if f.isModulator store ∧ ¬ f.areSiblings t then
      (getNodeToConnect (some f) Which.fromSide,
        getNodeToConnectToModulator store (some t) (f.isModulatorType store))
    else
      (getNodeToConnect (some f) Which.fromSide,
        (getNodeToConnect (some t) Which.toSide).map ConnTarget.prim)
  | f, t =>
    (getNodeToConnect f Which.fromSide,
      (getNodeToConnect t Which.toSide).map ConnTarget.prim)

/-- `AudioNode.connect` (cracked.js:1404): for a non-null, distinct
target, resolve the endpoints; the native connect happens only when both
resolve (`nodes.from && isFun(nodes.from.connect) && nodes.to`).  Returns
the native edge made, `none` when the JS logs an error and does nothing. -/
def nodeConnect (store : Store) (n : AudioNode) (nodeToConnect : Option AudioNode) :
    Option (NativeNode × ConnTarget) :=
  match nodeToConnect with
  | some t =>
    if n.uuid ≠ t.uuid then
      match getNodesToConnect store (some n) (some t) with
      | (some f, some tt) => some (f, tt)
      | _ => none
    else none
  | none => none

/-- `AudioNode.connectPrevious` (cracked.js:1416): resolve the endpoints
from the recorded previous node (a wrapper reference, here read back from
the store) to this node. -/
def nodeConnectPrevious (store : Store) (n : AudioNode) :
    Option (NativeNode × ConnTarget) :=
  match n.prevNode with
  | some pu =>
    match getNodeWithUUID store pu with
    | some p =>
      if n.uuid ≠ p.uuid then
        match getNodesToConnect store (some p) (some n) with
        | (some f, some tt) => some (f, tt)
        | _ => none
      else none
    | none => none
  | none => none

/-- The host factory `audioNodeFactory` (cracked.js:1040) builds a fresh
native node from a creation configuration using the audio context; the
context is an external collaborator, so the factory is a parameter of the
lifecycle operations. -/
abbrev Factory := CreationParams → NativeNode

/-- `AudioNode.resetNode` (cracked.js:1353), non-macro branch: save the
attached buffer reference, rebuild a fresh primitive from the original
creation configuration, tag it with the wrapper's uuid, replay every
recorded `next` edge and then the `previous` edge against the new
primitive, clear the playing flag, and restore the saved buffer if one was
attached.  (The macro branch recurses into a member wrapper through the
store; the claims concern leaf source nodes, so only this branch is
modelled.)  Returns the updated wrapper and the replayed native edges. -/
def resetNode (factory : Factory) (store : Store) (n : AudioNode) :
    AudioNode × List (NativeNode × ConnTarget) :=
  let savedBuffer := n.native.buffer
  let freshNative := (factory n.parameters).setUuid n.uuid
  let n1 : AudioNode := { n with native := freshNative }
  let nextConns := n.nextNode.filterMap
    (fun nu => nodeConnect store n1 (getNodeWithUUID store nu))
  let prevConns := (nodeConnectPrevious store n1).toList
  let n2 : AudioNode := { n1 with isPlaying := false }
  let n3 : AudioNode :=
    match savedBuffer with
    | some b => { n2 with native := n2.native.setBuffer b }
    | none => n2
  (n3, nextConns ++ prevConns)

/-- The module-level mutable state of cracked.js that the claims touch:
node store, lookup index, selection, previous-node reference and the
macro recording stack (`_currentMacro`, a JS array with the top at the
end, holding wrapper references modelled by uuid). -/
structure CrackedState where
  nodeStore : Store := []
  nodeLookup : Table := []
  previousNode : Option Nat := none
  selectedNodes : List Nat := []
  currentSelector : String := ""
  macroStack : List Nat := []

/-- `getCurrentMacroNamespace` (cracked.js:426): the type names of all
macros on the recording stack, outermost first, each followed by a space
(the wrappers on the stack read back through the store); empty when not
recording. -/
def getCurrentMacroNamespace (store : Store) (stack : List Nat) : String :=
  String.join (stack.map (fun u =>
    (match getNodeWithUUID store u with
     | some n => n.nodeType
     | none => "") ++ " "))

/-- The `id` entry of `setNodeLookup` (cracked.js:1703): when an id is
set, index the node under the namespace-prefixed `#id` key. -/
def setNodeLookupId (tbl : Table) (nspace : String) (node : AudioNode) : Table :=
  match node.parameters.settings.id with
  | some i => setter tbl (nspace ++ "#" ++ i) node.uuid
  | none => tbl

/-- The `class` entries of `setNodeLookup` (cracked.js:1705): the source
iterates the comma-separated class tokens but pushes the *whole* class
string, namespace-prefixed and dot-prefixed, as the key once per token. -/
def setNodeLookupClass (tbl : Table) (nspace : String) (node : AudioNode) : Table :=
  match node.parameters.settings.className with
  | some c =>
    (splitComma c).foldl (fun t _ => setter t (nspace ++ "." ++ c) node.uuid) tbl
  | none => tbl

/-- `setNodeLookup` (cracked.js:1698): index a node under its
namespace-prefixed `#id` key (when an id is set), its namespace-prefixed
`.class` key (when a class is set), the global `"*"` key, and its
namespace-prefixed type key. -/
def setNodeLookup (tbl : Table) (nspace : String) (node : AudioNode) : Table :=
  setter
    (setter (setNodeLookupClass (setNodeLookupId tbl nspace node) nspace node)
      "*" node.uuid)
    (nspace ++ node.nodeType) node.uuid

/-- Mutation of the store entry with the given uuid (a JS object mutation
seen through the shared reference in `_nodeStore`). -/
def updateStore (store : Store) (uuid : Nat) (f : AudioNode → AudioNode) : Store :=
  store.map (fun n => if n.uuid == uuid then f n else n)

/-- `updateMacro` (cracked.js:391): while recording, tag a newly created
node with the top macro's uuid and append the node's native handle to the
top macro's member array. -/
def updateMacroOnCreate (st : CrackedState) (node : AudioNode) :
    CrackedState × AudioNode :=
  match st.macroStack.getLast? with
  | some topU =>
    let node' := { node with macroContainerUUID := some topU }
    let store := updateStore st.nodeStore topU
      (fun m => { m with native := m.native.pushMember node'.native })
    ({ st with nodeStore := store }, node')
  | none => (st, node)

/-- `saveNode` (cracked.js:1676): `updateMacro`, then `setNode` (store the
wrapper under its fresh uuid), then `setNodeLookup` under the current
macro namespace. -/
def saveNode (st : CrackedState) (node : AudioNode) : CrackedState × AudioNode :=
  let um := updateMacroOnCreate st node
  let st1 := um.1
  let node' := um.2
  let st2 := { st1 with nodeStore := st1.nodeStore ++ [node'] }
  let nspace := getCurrentMacroNamespace st2.nodeStore st2.macroStack
  let st3 := { st2 with nodeLookup := setNodeLookup st2.nodeLookup nspace node' }
  (st3, node')

/-- `AudioNode.pushNextNode` (cracked.js:1260): record the new `next` edge
on the wrapper that owns the boundary `from` primitive, redirecting from a
macro container to the member wrapper (`fromNode.pushNextNode(node)`); the
redirect chain is walked with explicit fuel — the store size bounds the
macro nesting depth. -/
def pushNextNodeFuel : Nat → Store → Nat → Nat → Store
  | 0, store, _, _ => store
  | fuel + 1, store, thisU, nodeU =>
    match getNodeWithUUID store thisU, getNodeWithUUID store nodeU with
    | some self, some node =>
      match (getNodesToConnect store (some self) (some node)).1 with
      | some fromNative =>
        if fromNative.uuid ≠ thisU then
          pushNextNodeFuel fuel store fromNative.uuid nodeU
        else
          updateStore store thisU (fun n => { n with nextNode := n.nextNode ++ [nodeU] })
      | none => store
    | _, _ => store

/-- One iteration of the connect loop of `createNode` (cracked.js:1015):
`getNodeWithUUID(nodesToConnect[i])`; when it resolves, the native connect
`nodeToConnect.connect(node)` is performed (the resolved native endpoints
are `getNodesToConnect`, proved separately), `pushNextNode` records the
`next` edge on the source wrapper, and `setPrevNode` overwrites the new
node's `previous` reference — in the wrapper and in the store.  The
accumulator also collects the wrapper-level edges made, as
(source uuid, new node uuid) pairs. -/
def connectStep (acc : CrackedState × AudioNode × List (Nat × Nat)) (u : Option Nat) :
    CrackedState × AudioNode × List (Nat × Nat) :=
  let st := acc.1
  let node := acc.2.1
  let es := acc.2.2
  match u.bind (getNodeWithUUID st.nodeStore) with
  | some nodeToConnect =>
    let store1 := pushNextNodeFuel (st.nodeStore.length + 1) st.nodeStore
      nodeToConnect.uuid node.uuid
    let node' := { node with prevNode := some nodeToConnect.uuid }
    let store2 := updateStore store1 node'.uuid
      (fun n => { n with prevNode := some nodeToConnect.uuid })
    let st' := { st with nodeStore := store2 }
    (st', node', es ++ [(nodeToConnect.uuid, node'.uuid)])
  | none => (st, node, es)

/-- `createNode` (cracked.js:1006): save the node; a macro wrapper returns
immediately.  Otherwise connect the new node to every currently selected
node if any, else to the single previous node if one exists; each made
connection performs the native connect, records a `next` edge on the
resolved source wrapper (`pushNextNode`) and overwrites the new node's
`previous` reference (`setPrevNode`).  Finally `resetSelection()` clears
the selection and `setPreviousNode(node)` stores the new node.  The
wrapper construction itself (uuid generation, parameter merging, the host
factory call) happens before this point and is modelled by passing the
constructed wrapper in.  Returns the new state, the final wrapper, and the
wrapper-level edges made as (source uuid, new node uuid) pairs; a native
connect failure in this loop throws in JS and is outside the model. -/
def createNode (st0 : CrackedState) (node0 : AudioNode) :
    CrackedState × AudioNode × List (Nat × Nat) :=
  let sv := saveNode st0 node0
  let st1 := sv.1
  let node1 := sv.2
  if node1.isMacroNode then (st1, node1, [])
  else
    let nodesToConnect : List (Option Nat) :=
      if st1.selectedNodes.length ≠ 0 then st1.selectedNodes.map some
      else [st1.previousNode]
    let folded := nodesToConnect.foldl connectStep (st1, node1, [])
    let st2 := folded.1
    let node2 := folded.2.1
    let edges := folded.2.2
    let st3 := { st2 with selectedNodes := [], currentSelector := "" }
    let st4 := { st3 with previousNode := some node2.uuid }
    (st4, node2, edges)

/-- `cracked.end` (cracked.js:362): pop the macro stack only when
recording and the top macro's declared type equals `name`; on pop, fix the
popped macro's namespace to the current namespace string (computed over
the whole stack, the popped macro included, as the source does before
popping).  Any other call is a no-op, and no error is raised — the
function is total. -/
def crackedEnd (name : String) (st : CrackedState) : CrackedState :=
  match st.macroStack.getLast? with
  | some topU =>
    match getNodeWithUUID st.nodeStore topU with
    | some top =>
      if top.nodeType = name then
        let ns := getCurrentMacroNamespace st.nodeStore st.macroStack
        let store := updateStore st.nodeStore topU
          (fun n => if ns ≠ "" then { n with macroNameSpace := ns } else n)
        { st with nodeStore := store, macroStack := st.macroStack.dropLast }
      else st
    | none => st
  | none => st

/-! ### Concrete instances used by the witnesses to evaluate the embedding -/

/-- A leaf node living inside the modulator macro `wMac`. -/
def wFrom : AudioNode :=
  { uuid := 1, nodeType := "osc", parameters := {},
    native := NativeNode.leaf 1 [] none, macroContainerUUID := some 50 }

/-- A plain target node exposing a `frequency` control parameter through
its mapping table. -/
def wTo : AudioNode :=
  { uuid := 2, nodeType := "gain",
    parameters := { settings := {}, mapping := [("frequency", "frequency.value")] },
    native := NativeNode.leaf 2 [("frequency", 7)] none }

/-- A sibling of `wFrom`: same owning macro. -/
def wToSib : AudioNode :=
  { uuid := 3, nodeType := "gain",
    parameters := { settings := {}, mapping := [("frequency", "frequency.value")] },
    native := NativeNode.leaf 3 [("frequency", 9)] none, macroContainerUUID := some 50 }

/-- A macro wrapper declaring `modulates: "frequency"`. -/
def wMac : AudioNode :=
  { uuid := 50, nodeType := "mod",
    parameters := { settings := { modulates := some "frequency" } },
    native := NativeNode.members 50 [NativeNode.leaf 1 [] none] }

/-- A store holding the four nodes above. -/
def wStore : Store := [wMac, wFrom, wTo, wToSib]

/-- A played-out one-shot buffer source with a loaded sample buffer. -/
def wPlayed : AudioNode :=
  { uuid := 4, nodeType := "buffer", parameters := { method := "createBufferSource" },
    native := NativeNode.leaf 4 [] (some 77), prevNode := some 2, nextNode := [2],
    isPlaying := true }

/-- A host factory producing a fresh blank buffer-source primitive. -/
def wFactory : Factory := fun _ => NativeNode.leaf 0 [] none

/-- A fresh non-macro node about to be created. -/
def wNew : AudioNode :=
  { uuid := 9, nodeType := "dac", parameters := {}, native := NativeNode.leaf 9 [] none }

/-- A fresh macro wrapper, as created by `begin`. -/
def wMacNew : AudioNode :=
  { uuid := 8, nodeType := "m", parameters := {}, native := NativeNode.members 8 [] }

/-- A state with one selected node. -/
def wStateSel : CrackedState :=
  { nodeStore := [wTo], selectedNodes := [2], currentSelector := "gain" }

/-- A state with no selection and a previous node. -/
def wStatePrev : CrackedState := { nodeStore := [wTo], previousNode := some 2 }

/-- A state with no selection and no previous node. -/
def wStateEmpty : CrackedState := { nodeStore := [wTo] }

/-- A state recording the macro `wMac`. -/
def wStateMac : CrackedState := { nodeStore := [wMac], macroStack := [50] }

/-- A node carrying a user id and a class, as created while a macro named
`"M"` is recording. -/
def wWithId : AudioNode :=
  { uuid := 5, nodeType := "sine",
    parameters := { settings := { id := some "foo", className := some "bar" } },
    native := NativeNode.leaf 5 [] none }

end Cracked

open Cracked

/-! ### Helper lemmas -/

theorem crackedUnbind_foldl_eq (cur : String) (ls : List Listener) (acc : List Listener) :
    ls.foldl (fun tmp el => if cur ≠ el.selector then tmp ++ [el] else tmp) acc =
      acc ++ ls.filter (fun el => el.selector != cur) := by
  induction ls generalizing acc with
  | nil => simp
  | cons x xs ih =>
    simp only [List.foldl_cons]
    by_cases h : cur = x.selector
    · have hb : (x.selector != cur) = false := by simp [h]
      rw [if_neg (fun hne => hne h), ih, List.filter_cons_of_neg (by simp [hb])]
    · have hb : (x.selector != cur) = true := by
        simp only [bne_iff_ne, ne_eq]
        exact fun he => h he.symm
      rw [if_pos h, ih, List.filter_cons_of_pos (p := fun el : Listener => el.selector != cur) hb]
      simp

theorem count_filter_ne (cur : String) (el : Listener) (ls : List Listener) :
    (ls.filter (fun e => e.selector != cur)).count el =
      if el.selector = cur then 0 else ls.count el := by
  induction ls with
  | nil => simp
  | cons x xs ih =>
    by_cases hx : x.selector = cur
    · have hb : (x.selector != cur) = false := by simp [hx]
      rw [List.filter_cons_of_neg (by simp [hb]), ih]
      by_cases hel : el.selector = cur
      · simp [hel]
      · have hne : el ≠ x := by
          intro he; rw [he] at hel; exact hel hx
        rw [if_neg hel, if_neg hel, List.count_cons_of_ne hne]
    · have hb : (x.selector != cur) = true := by
        simp only [bne_iff_ne, ne_eq]
        exact hx
      rw [List.filter_cons_of_pos (p := fun e : Listener => e.selector != cur) hb]
      by_cases hel : el.selector = cur
      · have hne : el ≠ x := by
          intro he; rw [he] at hel; exact hx hel
        rw [List.count_cons_of_ne hne, ih, if_pos hel, if_pos hel]
      · by_cases hex : el = x
        · subst hex
          rw [List.count_cons_self, List.count_cons_self, ih, if_neg hel, if_neg hel]
        · rw [List.count_cons_of_ne hex, List.count_cons_of_ne hex, ih, if_neg hel]

/-! ### Claim theorems -/

/-- C3: on each sequencer timer tick with host time `now`, a step fires if
and only if `now` lies strictly inside the window
`(target − interval/1000, target)`; exactly when a step fires the target
time-for-next-step increases by exactly `interval/1000` (the step interval
converted from milliseconds to the seconds used by host time), and
otherwise the target is unchanged. -/
theorem checkup_fires_iff_inside_window (now target interval : Rat) :
    ((checkup now target interval).1 = true ↔
      target - interval / 1000 < now ∧ now < target) ∧
    ((checkup now target interval).1 = true →
      (checkup now target interval).2 = target + interval / 1000) ∧
    ((checkup now target interval).1 = false →
      (checkup now target interval).2 = target) := by
  by_cases h : now < target ∧ now > target - interval / 1000
  · have hc : checkup now target interval = (true, target + interval / 1000) := by
      unfold checkup
      exact if_pos h
    rw [hc]
    refine ⟨iff_of_true rfl ⟨h.2, h.1⟩, fun _ => rfl, fun hf => absurd hf (by simp)⟩
  · have hc : checkup now target interval = (false, target) := by
      unfold checkup
      exact if_neg h
    rw [hc]
    refine ⟨iff_of_false (by simp) (fun hw => h ⟨hw.2, hw.1⟩), fun hf => absurd hf (by simp),
      fun _ => rfl⟩

/-- C3 witness: with `target = 1`, `interval = 100` ms, a tick at
`now = 0.95` fires and advances the target to `1.1`. -/
theorem checkup_fires_iff_inside_window_witness :
    (checkup (95/100) 1 100).1 = true ∧ (checkup (95/100) 1 100).2 = 1 + 100 / 1000 := by
  have h := checkup_fires_iff_inside_window (95/100) 1 100
  have hf : (checkup (95/100) 1 100).1 = true := h.1.mpr (by norm_num)
  exact ⟨hf, h.2.1 hf⟩

/-- C8: `unbind("step")` removes exactly those step listener bindings
whose recorded selector text equals the currently active selector text:
every binding occurrence with a different recorded selector survives with
its multiplicity intact (and in the original order, the result being a
sublist), and no binding with the active selector text survives. -/
theorem unbind_step_removes_exactly_matching (cur : String) (ls : List Listener) :
    (∀ el : Listener, (crackedUnbind "step" cur ls).count el =
      if el.selector = cur then 0 else ls.count el) ∧
    (crackedUnbind "step" cur ls).Sublist ls := by
  have heq : crackedUnbind "step" cur ls = ls.filter (fun el => el.selector != cur) := by
    unfold crackedUnbind
    rw [if_pos rfl, crackedUnbind_foldl_eq]
    simp
  constructor
  · intro el
    rw [heq]
    exact count_filter_ne cur el ls
  · rw [heq]
    exact List.filter_sublist ls

/-! ### Lemmas about `arrayUnique` and the selector fold -/

theorem mem_of_mem_arrayUniqueAux {y : Nat} :
    ∀ {fuel : Nat} {l : List Nat}, y ∈ arrayUniqueAux fuel l → y ∈ l := by
  intro fuel
  induction fuel with
  | zero => intro l h; simp [arrayUniqueAux] at h
  | succ n ih =>
    intro l h
    cases l with
    | nil => simp [arrayUniqueAux] at h
    | cons x xs =>
      simp only [arrayUniqueAux, List.mem_cons] at h
      rcases h with h | h
      · exact h ▸ List.mem_cons_self x xs
      · exact List.mem_cons_of_mem x (List.mem_of_mem_filter (ih h))

theorem arrayUniqueAux_nodup : ∀ (fuel : Nat) (l : List Nat), (arrayUniqueAux fuel l).Nodup := by
  intro fuel
  induction fuel with
  | zero => intro l; simp [arrayUniqueAux]
  | succ n ih =>
    intro l
    cases l with
    | nil => simp [arrayUniqueAux]
    | cons x xs =>
      simp only [arrayUniqueAux]
      refine List.nodup_cons.mpr ⟨?_, ih _⟩
      intro hx
      have hb := List.of_mem_filter (mem_of_mem_arrayUniqueAux hx)
      simp at hb

theorem mem_arrayUniqueAux_of_mem :
    ∀ (fuel : Nat) (l : List Nat), l.length ≤ fuel →
      ∀ {y : Nat}, y ∈ l → y ∈ arrayUniqueAux fuel l := by
  intro fuel
  induction fuel with
  | zero =>
    intro l hl y hy
    rw [Nat.le_zero, List.length_eq_zero] at hl
    subst hl
    simp at hy
  | succ n ih =>
    intro l hl y hy
    cases l with
    | nil => simp at hy
    | cons x xs =>
      simp only [arrayUniqueAux, List.mem_cons]
      rcases List.mem_cons.mp hy with h | h
      · exact Or.inl h
      · by_cases hyx : y = x
        · exact Or.inl hyx
        · refine Or.inr (ih _ ?_ ?_)
          · exact Nat.le_trans (List.length_filter_le _ _)
              (Nat.le_of_succ_le_succ hl)
          · exact List.mem_filter.mpr ⟨h, by simp [hyx]⟩

theorem firstIdx_cons (x y : Nat) (ys : List Nat) :
    firstIdx x (y :: ys) = if y = x then 0 else firstIdx x ys + 1 := rfl

theorem firstIdx_lt_length {a : Nat} : ∀ {l : List Nat}, a ∈ l → firstIdx a l < l.length := by
  intro l
  induction l with
  | nil => intro h; simp at h
  | cons y ys ih =>
    intro h
    by_cases hy : y = a
    · simp [firstIdx_cons, hy]
    · rcases List.mem_cons.mp h with h' | h'
      · exact absurd h'.symm hy
      · rw [firstIdx_cons, if_neg hy, List.length_cons]
        exact Nat.succ_lt_succ (ih h')

theorem firstIdx_append_left {a : Nat} :
    ∀ {u : List Nat} (v : List Nat), a ∈ u → firstIdx a (u ++ v) = firstIdx a u := by
  intro u
  induction u with
  | nil => intro v h; simp at h
  | cons y ys ih =>
    intro v h
    by_cases hy : y = a
    · simp [firstIdx_cons, hy]
    · rcases List.mem_cons.mp h with h' | h'
      · exact absurd h'.symm hy
      · rw [List.cons_append, firstIdx_cons, if_neg hy, firstIdx_cons, if_neg hy, ih v h']

theorem firstIdx_append_right {a : Nat} :
    ∀ {u : List Nat} (v : List Nat), a ∉ u →
      firstIdx a (u ++ v) = u.length + firstIdx a v := by
  intro u
  induction u with
  | nil => intro v _; simp
  | cons y ys ih =>
    intro v h
    have hy : y ≠ a := fun he => h (he ▸ List.mem_cons_self y ys)
    have hys : a ∉ ys := fun hc => h (List.mem_cons_of_mem y hc)
    rw [List.cons_append, firstIdx_cons, if_neg hy, ih v hys, List.length_cons]
    omega

theorem firstIdx_filter_lt {p : Nat → Bool} {a b : Nat} :
    ∀ {xs : List Nat}, a ∈ xs → p a = true → b ∈ xs → p b = true →
      firstIdx a (xs.filter p) < firstIdx b (xs.filter p) →
      firstIdx a xs < firstIdx b xs := by
  intro xs
  induction xs with
  | nil => intro h; simp at h
  | cons y ys ih =>
    intro ha hpa hb hpb hlt
    simp only [firstIdx_cons]
    by_cases hpy : p y = true
    · rw [List.filter_cons_of_pos hpy] at hlt
      simp only [firstIdx_cons] at hlt
      by_cases hya : y = a
      · rw [if_pos hya] at hlt ⊢
        by_cases hyb : y = b
        · rw [if_pos hyb] at hlt
          exact absurd hlt (Nat.not_lt_zero _)
        · rw [if_neg hyb]
          exact Nat.succ_pos _
      · rw [if_neg hya] at hlt ⊢
        by_cases hyb : y = b
        · rw [if_pos hyb] at hlt
          exact absurd hlt (Nat.not_lt_zero _)
        · rw [if_neg hyb] at hlt ⊢
          have ha' : a ∈ ys := by
            rcases List.mem_cons.mp ha with h' | h'
            · exact absurd h'.symm hya
            · exact h'
          have hb' : b ∈ ys := by
            rcases List.mem_cons.mp hb with h' | h'
            · exact absurd h'.symm hyb
            · exact h'
          exact Nat.succ_lt_succ (ih ha' hpa hb' hpb (Nat.lt_of_succ_lt_succ hlt))
    · have hya : y ≠ a := fun he => hpy (he ▸ hpa)
      have hyb : y ≠ b := fun he => hpy (he ▸ hpb)
      rw [List.filter_cons_of_neg (by simpa using hpy)] at hlt
      rw [if_neg hya, if_neg hyb]
      have ha' : a ∈ ys := by
        rcases List.mem_cons.mp ha with h' | h'
        · exact absurd h'.symm hya
        · exact h'
      have hb' : b ∈ ys := by
        rcases List.mem_cons.mp hb with h' | h'
        · exact absurd h'.symm hyb
        · exact h'
      exact Nat.succ_lt_succ (ih ha' hpa hb' hpb hlt)

theorem rel_of_pairwise_firstIdx {R : Nat → Nat → Prop} :
    ∀ {N : List Nat}, N.Pairwise R → ∀ {a b : Nat}, a ∈ N → b ∈ N →
      firstIdx a N < firstIdx b N → R a b := by
  intro N
  induction N with
  | nil => intro _ a b ha; simp at ha
  | cons y ys ih =>
    intro hp a b ha hb hlt
    rcases List.pairwise_cons.mp hp with ⟨hy, hp'⟩
    simp only [firstIdx_cons] at hlt
    by_cases hyb : y = b
    · rw [if_pos hyb] at hlt
      exact absurd hlt (Nat.not_lt_zero _)
    · rw [if_neg hyb] at hlt
      have hb' : b ∈ ys := by
        rcases List.mem_cons.mp hb with h' | h'
        · exact absurd h'.symm hyb
        · exact h'
      by_cases hya : y = a
      · exact hya ▸ hy b hb'
      · have ha' : a ∈ ys := by
          rcases List.mem_cons.mp ha with h' | h'
          · exact absurd h'.symm hya
          · exact h'
        rw [if_neg hya] at hlt
        exact ih hp' ha' hb' (Nat.lt_of_succ_lt_succ hlt)

theorem arrayUniqueAux_pairwise_firstIdx :
    ∀ (fuel : Nat) (l : List Nat),
      (arrayUniqueAux fuel l).Pairwise (fun a b => firstIdx a l < firstIdx b l) := by
  intro fuel
  induction fuel with
  | zero => intro l; simp [arrayUniqueAux]
  | succ n ih =>
    intro l
    cases l with
    | nil => simp [arrayUniqueAux]
    | cons x xs =>
      simp only [arrayUniqueAux]
      refine List.pairwise_cons.mpr ⟨?_, ?_⟩
      · intro b hb
        have hbf := mem_of_mem_arrayUniqueAux hb
        have hbx := List.of_mem_filter hbf
        have hxb : x ≠ b := by
          intro he
          subst he
          simp at hbx
        rw [firstIdx_cons, if_pos rfl, firstIdx_cons, if_neg hxb]
        exact Nat.succ_pos _
      · refine List.Pairwise.imp_of_mem ?_ (ih (xs.filter (fun y => y != x)))
        intro a b ha hb hlt
        have haf := mem_of_mem_arrayUniqueAux ha
        have hbf := mem_of_mem_arrayUniqueAux hb
        have hax : a ∈ xs := List.mem_of_mem_filter haf
        have hbxs : b ∈ xs := List.mem_of_mem_filter hbf
        have hpa := List.of_mem_filter haf
        have hpb := List.of_mem_filter hbf
        have hxa : x ≠ a := by
          intro he
          subst he
          simp at hpa
        have hxb : x ≠ b := by
          intro he
          subst he
          simp at hpb
        rw [firstIdx_cons, if_neg hxa, firstIdx_cons, if_neg hxb]
        exact Nat.succ_lt_succ (firstIdx_filter_lt hax hpa hbxs hpb hlt)

theorem arrayUnique_append_spec (N L0 t : List Nat)
    (hmem : ∀ x, x ∈ N ↔ x ∈ L0)
    (hord : N.Pairwise (fun a b => firstIdx a L0 < firstIdx b L0)) :
    (arrayUnique (N ++ t)).Nodup ∧
    (∀ x, x ∈ arrayUnique (N ++ t) ↔ x ∈ L0 ++ t) ∧
    (arrayUnique (N ++ t)).Pairwise
      (fun a b => firstIdx a (L0 ++ t) < firstIdx b (L0 ++ t)) := by
  refine ⟨arrayUniqueAux_nodup _ _, ?_, ?_⟩
  · intro x
    constructor
    · intro hx
      rcases List.mem_append.mp (mem_of_mem_arrayUniqueAux hx) with h | h
      · exact List.mem_append.mpr (Or.inl ((hmem x).mp h))
      · exact List.mem_append.mpr (Or.inr h)
    · intro hx
      apply mem_arrayUniqueAux_of_mem _ _ (Nat.le_refl _)
      rcases List.mem_append.mp hx with h | h
      · exact List.mem_append.mpr (Or.inl ((hmem x).mpr h))
      · exact List.mem_append.mpr (Or.inr h)
  · refine List.Pairwise.imp_of_mem ?_
      (arrayUniqueAux_pairwise_firstIdx (N ++ t).length (N ++ t))
    intro a b ha hb hlt
    by_cases haN : a ∈ N
    · by_cases hbN : b ∈ N
      · rw [firstIdx_append_left _ haN, firstIdx_append_left _ hbN] at hlt
        have hrel := rel_of_pairwise_firstIdx hord haN hbN hlt
        have haL : a ∈ L0 := (hmem a).mp haN
        have hbL : b ∈ L0 := (hmem b).mp hbN
        rw [firstIdx_append_left _ haL, firstIdx_append_left _ hbL]
        exact hrel
      · have hbL : b ∉ L0 := fun hc => hbN ((hmem b).mpr hc)
        have haL : a ∈ L0 := (hmem a).mp haN
        have hfa := firstIdx_lt_length haL
        rw [firstIdx_append_left _ haL, firstIdx_append_right _ hbL]
        omega
    · by_cases hbN : b ∈ N
      · exfalso
        have hfb := firstIdx_lt_length hbN
        rw [firstIdx_append_right _ haN, firstIdx_append_left _ hbN] at hlt
        omega
      · have haL : a ∉ L0 := fun hc => haN ((hmem a).mpr hc)
        have hbL : b ∉ L0 := fun hc => hbN ((hmem b).mpr hc)
        rw [firstIdx_append_right _ haN, firstIdx_append_right _ hbN] at hlt
        rw [firstIdx_append_right _ haL, firstIdx_append_right _ hbL]
        omega

theorem selFold_invariant (tbl : Table) :
    ∀ (cs : List String) (N L0 : List Nat),
      (∀ x, x ∈ N ↔ x ∈ L0) →
      N.Pairwise (fun a b => firstIdx a L0 < firstIdx b L0) →
      N.Nodup →
      (selFold tbl cs N).Nodup ∧
      (∀ x, x ∈ selFold tbl cs N ↔ x ∈ L0 ++ (cs.map (clauseResult tbl)).flatten) ∧
      (selFold tbl cs N).Pairwise (fun a b =>
        firstIdx a (L0 ++ (cs.map (clauseResult tbl)).flatten) <
          firstIdx b (L0 ++ (cs.map (clauseResult tbl)).flatten)) := by
  intro cs
  induction cs with
  | nil =>
    intro N L0 hmem hord hnd
    simp only [selFold, List.foldl_nil, List.map_nil, List.flatten_nil, List.append_nil]
    exact ⟨hnd, hmem, hord⟩
  | cons c cs' ih =>
    intro N L0 hmem hord hnd
    simp only [selFold, List.foldl_cons, List.map_cons, List.flatten_cons]
    by_cases hc : c = ""
    · have hstep : selStep tbl N c = N := by
        rw [selStep, if_neg (by simp [hc])]
      have hclause : clauseResult tbl c = [] := by
        rw [clauseResult, if_neg (by simp [hc])]
      rw [hstep, hclause, List.nil_append]
      exact ih N L0 hmem hord hnd
    · cases htg : tableGet tbl c with
      | none =>
        have hstep : selStep tbl N c = N := by
          rw [selStep, if_pos hc, htg]
        have hclause : clauseResult tbl c = [] := by
          rw [clauseResult, if_pos hc, htg]
        rw [hstep, hclause, List.nil_append]
        exact ih N L0 hmem hord hnd
      | some tmp =>
        have hstep : selStep tbl N c =
            arrayUnique (N ++ clauseResult tbl c) := by
          rw [selStep, if_pos hc, htg, clauseResult, if_pos hc, htg]
        have hau := arrayUnique_append_spec N L0 (clauseResult tbl c) hmem hord
        have hrec := ih (arrayUnique (N ++ clauseResult tbl c))
          (L0 ++ clauseResult tbl c) hau.2.1 hau.2.2 hau.1
        rw [hstep]
        rw [List.append_assoc] at hrec
        exact hrec

theorem arrayUnique_short {l : List Nat} (h : l.length ≤ 1) : arrayUnique l = l := by
  cases l with
  | nil => rfl
  | cons a l' =>
    cases l' with
    | nil => rfl
    | cons b l'' => simp at h

theorem selType_id_ne_empty {c : String} (hid : getSelectorType c = SelType.idSel) :
    c ≠ "" := by
  intro hc
  rw [hc] at hid
  exact absurd hid (by decide)

/-- C4: for every selector text, `getNodesWithSelector` returns a list of
node ids with no duplicates, whose membership is exactly that of the
comma-separated clauses resolved left to right, ordered by first
occurrence across those clause results (`clausesJoin`). -/
theorem getNodesWithSelector_ordered_unique (tbl : Table) (sel : String) :
    (getNodesWithSelector tbl sel).Nodup ∧
    (∀ x, x ∈ getNodesWithSelector tbl sel ↔ x ∈ clausesJoin tbl sel) ∧
    (getNodesWithSelector tbl sel).Pairwise
      (fun a b => firstIdx a (clausesJoin tbl sel) < firstIdx b (clausesJoin tbl sel)) := by
  have h := selFold_invariant tbl (splitComma sel) [] []
    (fun x => Iff.rfl) List.Pairwise.nil List.nodup_nil
  unfold getNodesWithSelector clausesJoin
  simpa using h

/-- C7: for every selector clause classified as an id clause, lookup
returns at most one node id — the first one indexed under that key — even
when the lookup index holds more than one node under that id key.  Stated
both for the per-clause result (`clauseResult`) and for a full
`getNodesWithSelector` query whose text is that single clause. -/
theorem id_clause_at_most_one (tbl : Table) (sel : String)
    (hid : getSelectorType sel = SelType.idSel)
    (hsplit : splitComma sel = [sel]) :
    clauseResult tbl sel = ((tableGet tbl sel).getD []).take 1 ∧
    getNodesWithSelector tbl sel = ((tableGet tbl sel).getD []).take 1 ∧
    (getNodesWithSelector tbl sel).length ≤ 1 := by
  have hne : sel ≠ "" := selType_id_ne_empty hid
  have hshort : ∀ l : List Nat, (l.take 1).length ≤ 1 := by
    intro l
    rw [List.length_take]
    exact min_le_left _ _
  have hclause : clauseResult tbl sel = ((tableGet tbl sel).getD []).take 1 := by
    rw [clauseResult, if_pos hne]
    cases htg : tableGet tbl sel with
    | none => simp
    | some tmp =>
      simp only [Option.getD_some]
      by_cases hlen : tmp.length > 1
      · rw [if_pos ⟨hid, hlen⟩]
      · rw [if_neg (fun hc => hlen hc.2)]
        exact (List.take_of_length_le (by omega)).symm
  have hmain : getNodesWithSelector tbl sel = ((tableGet tbl sel).getD []).take 1 := by
    unfold getNodesWithSelector
    rw [hsplit]
    simp only [selFold, List.foldl_cons, List.foldl_nil]
    rw [selStep, if_pos hne]
    cases htg : tableGet tbl sel with
    | none => simp
    | some tmp =>
      simp only [Option.getD_some]
      by_cases hlen : tmp.length > 1
      · rw [if_pos ⟨hid, hlen⟩, List.nil_append]
        exact arrayUnique_short (hshort tmp)
      · rw [if_neg (fun hc => hlen hc.2), List.nil_append]
        rw [arrayUnique_short (by omega)]
        exact (List.take_of_length_le (by omega)).symm
  exact ⟨hclause, hmain, by rw [hmain]; exact hshort _⟩

/-- C7 witness: under an index that (erroneously) holds the two nodes
`2` and `3` at the id key `"#foo"`, the clause and the query both return
only the first node `2`. -/
theorem id_clause_at_most_one_witness :
    clauseResult [("#foo", [2, 3])] "#foo" = [2] ∧
    getNodesWithSelector [("#foo", [2, 3])] "#foo" = [2] ∧
    (getNodesWithSelector [("#foo", [2, 3])] "#foo").length ≤ 1 := by
  have h := id_clause_at_most_one [("#foo", [2, 3])] "#foo" (by decide) (by decide)
  refine ⟨?_, ?_, h.2.2⟩
  · rw [h.1]
    decide
  · rw [h.2.1]
    decide

/-! ### Lemmas about `saveNode`, `createNode` and `crackedEnd` -/

theorem saveNode_proj (st : CrackedState) (node : AudioNode) :
    (saveNode st node).2.uuid = node.uuid ∧
    (saveNode st node).2.native = node.native ∧
    (saveNode st node).1.selectedNodes = st.selectedNodes ∧
    (saveNode st node).1.previousNode = st.previousNode ∧
    (saveNode st node).1.currentSelector = st.currentSelector ∧
    (saveNode st node).1.macroStack = st.macroStack := by
  unfold saveNode updateMacroOnCreate
  cases st.macroStack.getLast? <;> simp

theorem connectFold_uuid :
    ∀ (us : List (Option Nat)) (acc : CrackedState × AudioNode × List (Nat × Nat)),
      ((us.foldl connectStep acc).2.1).uuid = acc.2.1.uuid := by
  intro us
  induction us with
  | nil => intro acc; rfl
  | cons u us' ih =>
    intro acc
    rw [List.foldl_cons, ih]
    unfold connectStep
    cases h : u.bind (getNodeWithUUID acc.1.nodeStore) with
    | none => simp [h]
    | some t => simp [h]

theorem getNodesToConnect_some (store : Store) (f t : AudioNode) :
    getNodesToConnect store (some f) (some t) =
      if f.isModulator store = true ∧ ¬ f.areSiblings t = true then
        (getNodeToConnect (some f) Which.fromSide,
          getNodeToConnectToModulator store (some t) (f.isModulatorType store))
      else
        (getNodeToConnect (some f) Which.fromSide,
          (getNodeToConnect (some t) Which.toSide).map ConnTarget.prim) := rfl

theorem getNodeToConnectToModulator_some (store : Store) (n : AudioNode)
    (property : String) :
    getNodeToConnectToModulator store (some n) property =
      match n.native with
      | NativeNode.members u es =>
        match findModParamInMembers store property es with
        | some p => some (ConnTarget.param p)
        | none => some (ConnTarget.prim (NativeNode.members u es))
      | NativeNode.leaf u pr b =>
        match (NativeNode.leaf u pr b).prop
            (stripValue (resolveParamMapping property n.getParamMapping)) with
        | some p => some (ConnTarget.param p)
        | none => none := rfl

/-! ### Claim theorems (continued) -/

/-- C1: in `connect(fromNode, toNode)`, when `fromNode` (or its owning
macro) declares a modulated target parameter name (`isModulator`) and
`toNode` is not a sibling (does not share `fromNode`'s owning-macro id),
`getNodesToConnect` resolves the `to` endpoint through
`getNodeToConnectToModulator`; for a leaf target this is the parameter
name mapped through `toNode`'s parameter-mapping table with the `.value`
accessor suffix stripped, looked up among the target primitive's control
parameters — a `ConnTarget.param`, never the primitive signal input.
When `toNode` IS a sibling, both endpoints are plain boundary
primitives. -/
theorem connect_modulator_routing (store : Store) (f t : AudioNode)
    (hmod : f.isModulator store = true) :
    (f.areSiblings t = false →
      getNodesToConnect store (some f) (some t) =
        (getNodeToConnect (some f) Which.fromSide,
          getNodeToConnectToModulator store (some t) (f.isModulatorType store)) ∧
      (∀ u pr b p, t.native = NativeNode.leaf u pr b →
        (NativeNode.leaf u pr b).prop
            (stripValue (resolveParamMapping (f.isModulatorType store)
              t.getParamMapping)) = some p →
        (getNodesToConnect store (some f) (some t)).2 = some (ConnTarget.param p) ∧
        (∀ nn, (getNodesToConnect store (some f) (some t)).2 ≠
          some (ConnTarget.prim nn)))) ∧
    (f.areSiblings t = true →
      getNodesToConnect store (some f) (some t) =
        (getNodeToConnect (some f) Which.fromSide,
          (getNodeToConnect (some t) Which.toSide).map ConnTarget.prim)) := by
  constructor
  · intro hsib
    have hcond : f.isModulator store = true ∧ ¬ f.areSiblings t = true :=
      ⟨hmod, fun hb => by rw [hsib] at hb; exact absurd hb (by simp)⟩
    have hgo : getNodesToConnect store (some f) (some t) =
        (getNodeToConnect (some f) Which.fromSide,
          getNodeToConnectToModulator store (some t) (f.isModulatorType store)) := by
      rw [getNodesToConnect_some, if_pos hcond]
    refine ⟨hgo, ?_⟩
    intro u pr b p hnat hprop
    have hto : (getNodesToConnect store (some f) (some t)).2 =
        some (ConnTarget.param p) := by
      rw [hgo]
      show getNodeToConnectToModulator store (some t) (f.isModulatorType store) = _
      rw [getNodeToConnectToModulator_some, hnat]
      simp only [hprop]
    refine ⟨hto, ?_⟩
    intro nn hw
    rw [hto] at hw
    exact ConnTarget.noConfusion (Option.some.inj hw)
  · intro hsib
    have hcond : ¬ (f.isModulator store = true ∧ ¬ f.areSiblings t = true) := by
      intro hc
      exact hc.2 hsib
    rw [getNodesToConnect_some, if_neg hcond]

/-- C1 witness: in `wStore`, `wFrom` sits in the modulator macro `wMac`
(`modulates: "frequency"`); connecting it to the non-sibling `wTo`
resolves the `to` endpoint to `wTo`'s `frequency` parameter (param id 7),
while connecting it to its sibling `wToSib` yields that node's primitive. -/
theorem connect_modulator_routing_witness :
    (getNodesToConnect wStore (some wFrom) (some wTo)).2 =
      some (ConnTarget.param 7) ∧
    (getNodesToConnect wStore (some wFrom) (some wToSib)).2 =
      some (ConnTarget.prim (NativeNode.leaf 3 [("frequency", 9)] none)) := by
  have h1 := connect_modulator_routing wStore wFrom wTo (by rfl)
  have h2 := connect_modulator_routing wStore wFrom wToSib (by rfl)
  constructor
  · exact ((h1.1 (by rfl)).2 2 [("frequency", 7)] none 7 rfl (by rfl)).1
  · rw [h2.2 (by rfl)]
    rfl

/-- C6: resetting a one-shot leaf source node replaces the underlying
primitive with a fresh one built by the host factory from the node's
original creation configuration (uuid re-tagged), leaves the recorded
`next` list and the single `previous` reference unchanged, replays each of
those connections against the node carrying the new primitive, carries an
attached sample buffer over to the new primitive, and leaves the playing
flag false immediately after the reset. -/
theorem resetNode_preserves_adjacency (factory : Factory) (store : Store) (n : AudioNode)
    (_hleaf : n.isMacroNode = false)
    (hfac : (factory n.parameters).isArr = false) :
    (resetNode factory store n).1.nextNode = n.nextNode ∧
    (resetNode factory store n).1.prevNode = n.prevNode ∧
    (resetNode factory store n).1.uuid = n.uuid ∧
    (resetNode factory store n).1.isPlaying = false ∧
    (∀ b, n.native.buffer = some b →
      (resetNode factory store n).1.native.buffer = some b ∧
      (resetNode factory store n).1.native =
        ((factory n.parameters).setUuid n.uuid).setBuffer b) ∧
    (n.native.buffer = none →
      (resetNode factory store n).1.native = (factory n.parameters).setUuid n.uuid) ∧
    (resetNode factory store n).2 =
      n.nextNode.filterMap (fun nu =>
        nodeConnect store { n with native := (factory n.parameters).setUuid n.uuid }
          (getNodeWithUUID store nu)) ++
      (nodeConnectPrevious store
        { n with native := (factory n.parameters).setUuid n.uuid }).toList := by
  cases hb : n.native.buffer with
  | none =>
    unfold resetNode
    rw [hb]
    refine ⟨rfl, rfl, rfl, rfl, ?_, fun _ => rfl, rfl⟩
    intro b hb'
    exact Option.noConfusion hb'
  | some b0 =>
    unfold resetNode
    rw [hb]
    refine ⟨rfl, rfl, rfl, rfl, ?_, ?_, rfl⟩
    · intro b hb'
      have hbb := Option.some.inj hb'
      subst hbb
      constructor
      · show (((factory n.parameters).setUuid n.uuid).setBuffer b0).buffer = some b0
        cases hf : factory n.parameters with
        | leaf fu fp fb => rfl
        | members fu fes =>
          rw [hf] at hfac
          exact absurd hfac (by simp [NativeNode.isArr])
      · rfl
    · intro hb'
      exact Option.noConfusion hb'

/-- C6 witness: resetting the played-out buffer source `wPlayed` keeps its
adjacency (`next` = [2], `previous` = 2), carries the sample buffer 77
onto the freshly built primitive, and clears the playing flag. -/
theorem resetNode_preserves_adjacency_witness :
    (resetNode wFactory [wTo, wPlayed] wPlayed).1.nextNode = [2] ∧
    (resetNode wFactory [wTo, wPlayed] wPlayed).1.prevNode = some 2 ∧
    (resetNode wFactory [wTo, wPlayed] wPlayed).1.isPlaying = false ∧
    (resetNode wFactory [wTo, wPlayed] wPlayed).1.native =
      NativeNode.leaf 4 [] (some 77) := by
  have h := resetNode_preserves_adjacency wFactory [wTo, wPlayed] wPlayed (by rfl) (by rfl)
  refine ⟨h.1, h.2.1, h.2.2.2.1, ?_⟩
  have h77 := (h.2.2.2.2.1 77 (by rfl)).2
  rw [h77]
  rfl

/-- C9: `end(name)` pops the macro recording stack only when the stack is
non-empty and the top macro's declared type equals `name`; a mismatched or
premature call returns the state unchanged — recording stack, node store
(hence macro ownership and namespace strings) and lookup index all intact
— and `crackedEnd` is a total function, so no error is raised to the
caller. -/
theorem end_pops_only_on_match (name : String) (st : CrackedState) :
    (st.macroStack = [] → crackedEnd name st = st) ∧
    (∀ topU top, st.macroStack.getLast? = some topU →
      getNodeWithUUID st.nodeStore topU = some top →
      (top.nodeType ≠ name → crackedEnd name st = st) ∧
      (top.nodeType = name →
        (crackedEnd name st).macroStack = st.macroStack.dropLast ∧
        (crackedEnd name st).nodeLookup = st.nodeLookup ∧
        (crackedEnd name st).selectedNodes = st.selectedNodes ∧
        (crackedEnd name st).previousNode = st.previousNode)) := by
  constructor
  · intro h
    unfold crackedEnd
    rw [h]
    rfl
  · intro topU top hl hn
    constructor
    · intro hne
      unfold crackedEnd
      rw [hl]
      simp only [hn]
      rw [if_neg hne]
    · intro heq
      unfold crackedEnd
      rw [hl]
      simp only [hn]
      rw [if_pos heq]
      simp

/-- C9 witness: with the macro `wMac` (type `"mod"`) recording,
`end("nope")` is a no-op, while `end("mod")` pops the stack and leaves the
lookup index alone. -/
theorem end_pops_only_on_match_witness :
    crackedEnd "nope" wStateMac = wStateMac ∧
    (crackedEnd "mod" wStateMac).macroStack = [] ∧
    (crackedEnd "mod" wStateMac).nodeLookup = wStateMac.nodeLookup := by
  have h1 := (end_pops_only_on_match "nope" wStateMac).2 50 wMac (by rfl) (by rfl)
  have h2 := (end_pops_only_on_match "mod" wStateMac).2 50 wMac (by rfl) (by rfl)
  have h2' := h2.2 (by rfl)
  exact ⟨h1.1 (by decide), h2'.1, h2'.2.1⟩

/-- C10: after every successful creation of a non-macro node the selection
is cleared — selected-node list empty, selector text empty — and the
previous-node reference is set to the newly created node, regardless of
which nodes it connected to; creating a macro wrapper node (the `begin`
path) returns early and leaves selection and previous-node reference
unchanged. -/
theorem createNode_resets_selection (st : CrackedState) (node : AudioNode) :
    (node.isMacroNode = false →
      (createNode st node).1.selectedNodes = [] ∧
      (createNode st node).1.currentSelector = "" ∧
      (createNode st node).1.previousNode = some node.uuid) ∧
    (node.isMacroNode = true →
      (createNode st node).1.selectedNodes = st.selectedNodes ∧
      (createNode st node).1.currentSelector = st.currentSelector ∧
      (createNode st node).1.previousNode = st.previousNode) := by
  have hs := saveNode_proj st node
  have hmac : (saveNode st node).2.isMacroNode = node.isMacroNode := by
    unfold AudioNode.isMacroNode
    rw [hs.2.1]
  constructor
  · intro h
    have hif : (saveNode st node).2.isMacroNode = false := by rw [hmac]; exact h
    simp only [createNode, hif]
    simp only [Bool.false_eq_true, if_false]
    refine ⟨by simp, by simp, ?_⟩
    show some ((List.foldl connectStep ((saveNode st node).1, (saveNode st node).2, [])
      _).2.1.uuid) = some node.uuid
    rw [connectFold_uuid]
    show some (saveNode st node).2.uuid = some node.uuid
    rw [hs.1]
  · intro h
    have hif : (saveNode st node).2.isMacroNode = true := by rw [hmac]; exact h
    simp only [createNode, hif, if_true]
    exact ⟨hs.2.2.1, hs.2.2.2.2.1, hs.2.2.2.1⟩

/-- C10 witness: creating `wNew` under the selection `[2]` clears the
selection and sets the previous node to 9; creating the macro wrapper
`wMacNew` leaves both untouched. -/
theorem createNode_resets_selection_witness :
    (createNode wStateSel wNew).1.selectedNodes = [] ∧
    (createNode wStateSel wNew).1.previousNode = some 9 ∧
    (createNode wStateSel wMacNew).1.selectedNodes = [2] ∧
    (createNode wStateSel wMacNew).1.previousNode = none := by
  have h1 := (createNode_resets_selection wStateSel wNew).1 (by rfl)
  have h2 := (createNode_resets_selection wStateSel wMacNew).2 (by rfl)
  exact ⟨h1.1, h1.2.2, h2.1, h2.2.2⟩

/-! ### Presence lemmas for the store, and the connect-loop fold -/

theorem getNodeWithUUID_uuid {s : Store} {u : Nat} {n : AudioNode}
    (h : getNodeWithUUID s u = some n) : n.uuid = u := by
  unfold getNodeWithUUID at h
  have hp := List.find?_some h
  simpa using hp

theorem getNodeWithUUID_updateStore_isSome (s : Store) (u0 u : Nat)
    (f : AudioNode → AudioNode) (hf : ∀ n, (f n).uuid = n.uuid) :
    (getNodeWithUUID (updateStore s u0 f) u).isSome =
      (getNodeWithUUID s u).isSome := by
  induction s with
  | nil => rfl
  | cons n ns ih =>
    show (List.find? (fun m => m.uuid == u)
        ((if (n.uuid == u0) = true then f n else n) :: updateStore ns u0 f)).isSome =
      (List.find? (fun m => m.uuid == u) (n :: ns)).isSome
    by_cases h0 : (n.uuid == u0) = true
    · rw [if_pos h0]
      by_cases hu : (n.uuid == u) = true
      · rw [List.find?_cons_of_pos (p := fun m : AudioNode => m.uuid == u) _
            (by simp only [hf]; exact hu),
          List.find?_cons_of_pos (p := fun m : AudioNode => m.uuid == u) _ hu]
        rfl
      · rw [List.find?_cons_of_neg (p := fun m : AudioNode => m.uuid == u) _
            (by simp only [hf]; exact hu),
          List.find?_cons_of_neg (p := fun m : AudioNode => m.uuid == u) _ hu]
        exact ih
    · rw [if_neg h0]
      by_cases hu : (n.uuid == u) = true
      · rw [List.find?_cons_of_pos (p := fun m : AudioNode => m.uuid == u) _ hu,
          List.find?_cons_of_pos (p := fun m : AudioNode => m.uuid == u) _ hu]
      · rw [List.find?_cons_of_neg (p := fun m : AudioNode => m.uuid == u) _ hu,
          List.find?_cons_of_neg (p := fun m : AudioNode => m.uuid == u) _ hu]
        exact ih

theorem pushNextNodeFuel_isSome :
    ∀ (fuel : Nat) (s : Store) (a b u : Nat),
      (getNodeWithUUID (pushNextNodeFuel fuel s a b) u).isSome =
        (getNodeWithUUID s u).isSome := by
  intro fuel
  induction fuel with
  | zero => intro s a b u; rfl
  | succ k ih =>
    intro s a b u
    unfold pushNextNodeFuel
    split
    · split
      · split
        · apply ih
        · exact getNodeWithUUID_updateStore_isSome _ _ _ _ (fun n => rfl)
      · rfl
    · rfl

theorem getNodeWithUUID_append_isSome (s : Store) (n0 : AudioNode) (u : Nat) :
    (getNodeWithUUID (s ++ [n0]) u).isSome =
      ((getNodeWithUUID s u).isSome || (n0.uuid == u)) := by
  induction s with
  | nil =>
    show (List.find? (fun m => m.uuid == u) [n0]).isSome = (false || (n0.uuid == u))
    by_cases h : (n0.uuid == u) = true
    · rw [List.find?_cons_of_pos (p := fun m : AudioNode => m.uuid == u) _ h]
      simp [h]
    · rw [List.find?_cons_of_neg (p := fun m : AudioNode => m.uuid == u) _ h]
      simp [h]
  | cons n ns ih =>
    show (List.find? (fun m => m.uuid == u) (n :: (ns ++ [n0]))).isSome =
      ((List.find? (fun m => m.uuid == u) (n :: ns)).isSome || (n0.uuid == u))
    by_cases h : (n.uuid == u) = true
    · rw [List.find?_cons_of_pos (p := fun m : AudioNode => m.uuid == u) _ h, List.find?_cons_of_pos (p := fun m : AudioNode => m.uuid == u) _ h]
      simp
    · rw [List.find?_cons_of_neg (p := fun m : AudioNode => m.uuid == u) _ h, List.find?_cons_of_neg (p := fun m : AudioNode => m.uuid == u) _ h]
      exact ih

theorem updateMacroOnCreate_isSome (st : CrackedState) (node : AudioNode) (u : Nat) :
    (getNodeWithUUID (updateMacroOnCreate st node).1.nodeStore u).isSome =
      (getNodeWithUUID st.nodeStore u).isSome := by
  unfold updateMacroOnCreate
  cases st.macroStack.getLast? with
  | none => rfl
  | some topU =>
    exact getNodeWithUUID_updateStore_isSome _ _ _ _ (fun n => rfl)

theorem updateMacroOnCreate_uuid (st : CrackedState) (node : AudioNode) :
    (updateMacroOnCreate st node).2.uuid = node.uuid := by
  unfold updateMacroOnCreate
  cases st.macroStack.getLast? with
  | none => rfl
  | some topU => rfl

theorem saveNode_isSome (st : CrackedState) (node : AudioNode) (u : Nat) :
    (getNodeWithUUID (saveNode st node).1.nodeStore u).isSome =
      ((getNodeWithUUID st.nodeStore u).isSome || (node.uuid == u)) := by
  show (getNodeWithUUID ((updateMacroOnCreate st node).1.nodeStore ++
      [(updateMacroOnCreate st node).2]) u).isSome = _
  rw [getNodeWithUUID_append_isSome, updateMacroOnCreate_isSome,
    updateMacroOnCreate_uuid]

theorem filterMap_some_map (l : List Nat) :
    (l.map some).filterMap (fun o => o) = l := by
  induction l with
  | nil => rfl
  | cons x xs ih => simp [ih]

theorem connectFold_edges (base : Store) (nodeU : Nat) :
    ∀ (us : List (Option Nat)) (stA : CrackedState) (nodeA : AudioNode)
      (es : List (Nat × Nat)),
      nodeA.uuid = nodeU →
      (∀ u, (getNodeWithUUID stA.nodeStore u).isSome =
        ((getNodeWithUUID base u).isSome || (nodeU == u))) →
      (∀ v, some v ∈ us → v ≠ nodeU) →
      (us.foldl connectStep (stA, nodeA, es)).2.2 =
        es ++ ((us.filterMap (fun o => o)).filter
          (fun v => (getNodeWithUUID base v).isSome)).map (fun v => (v, nodeU)) := by
  intro us
  induction us with
  | nil =>
    intro stA nodeA es _ _ _
    simp
  | cons u us' ih =>
    intro stA nodeA es huuid hpres hne
    rw [List.foldl_cons]
    cases u with
    | none =>
      have hstep : connectStep (stA, nodeA, es) none = (stA, nodeA, es) := rfl
      rw [hstep, ih stA nodeA es huuid hpres
        (fun v hv => hne v (List.mem_cons_of_mem _ hv))]
      simp
    | some v =>
      have hv : v ≠ nodeU := hne v (List.mem_cons_self _ _)
      cases hl : getNodeWithUUID stA.nodeStore v with
      | none =>
        have hstep : connectStep (stA, nodeA, es) (some v) = (stA, nodeA, es) := by
          unfold connectStep
          simp [hl]
        rw [hstep, ih stA nodeA es huuid hpres
          (fun w hw => hne w (List.mem_cons_of_mem _ hw))]
        have hbase : (getNodeWithUUID base v).isSome = false := by
          have hp := hpres v
          rw [hl] at hp
          cases hb : (getNodeWithUUID base v).isSome
          · rfl
          · rw [hb] at hp
            simp at hp
        simp [hbase]
      | some t =>
        have htu : t.uuid = v := getNodeWithUUID_uuid hl
        have hstep : connectStep (stA, nodeA, es) (some v) =
            ({ stA with
                nodeStore :=
                  updateStore
                    (pushNextNodeFuel (stA.nodeStore.length + 1) stA.nodeStore
                      t.uuid nodeA.uuid)
                    nodeA.uuid (fun n => { n with prevNode := some t.uuid }) },
              { nodeA with prevNode := some t.uuid },
              es ++ [(t.uuid, nodeA.uuid)]) := by
          unfold connectStep
          simp [hl]
        rw [hstep]
        have hpres' : ∀ w, (getNodeWithUUID (updateStore
            (pushNextNodeFuel (stA.nodeStore.length + 1) stA.nodeStore
              t.uuid nodeA.uuid)
            nodeA.uuid (fun n => { n with prevNode := some t.uuid })) w).isSome =
            ((getNodeWithUUID base w).isSome || (nodeU == w)) := by
          intro w
          rw [getNodeWithUUID_updateStore_isSome _ _ _
              (fun n => { n with prevNode := some t.uuid }) (fun n => rfl),
            pushNextNodeFuel_isSome]
          exact hpres w
        rw [ih _ _ _ (by simp [huuid]) hpres'
          (fun w hw => hne w (List.mem_cons_of_mem _ hw))]
        have hbase : (getNodeWithUUID base v).isSome = true := by
          have hp := hpres v
          rw [hl] at hp
          have hnv : (nodeU == v) = false := by
            simp only [beq_eq_false_iff_ne, ne_eq]
            exact fun he => hv he.symm
          rw [hnv, Bool.or_false] at hp
          exact hp.symm
        rw [htu, huuid]
        simp [hbase]

theorem createNode_not_macro (st : CrackedState) (node : AudioNode)
    (h : (saveNode st node).2.isMacroNode = false) :
    createNode st node =
      (let folded := (if (saveNode st node).1.selectedNodes.length ≠ 0 then
          (saveNode st node).1.selectedNodes.map some
        else [(saveNode st node).1.previousNode]).foldl connectStep
          ((saveNode st node).1, (saveNode st node).2, [])
       ({ folded.1 with
            selectedNodes := [],
            currentSelector := "",
            previousNode := some folded.2.1.uuid },
         folded.2.1, folded.2.2)) := by
  unfold createNode
  simp [h]

/-- C2: at each successful creation of a non-macro node (fresh uuid), the
default connection rule holds: if the current selection is non-empty an
edge is made between the new node and every currently selected node
present in the registry; otherwise, if a previous node exists (in the
registry, distinct from the new node), a single edge is made to it;
otherwise no connection is made. -/
theorem createNode_default_connection (st : CrackedState) (node : AudioNode)
    (hmac : node.isMacroNode = false)
    (hfresh : node.uuid ∉ st.selectedNodes) :
    (st.selectedNodes ≠ [] →
      (createNode st node).2.2 =
        (st.selectedNodes.filter
          (fun u => (getNodeWithUUID st.nodeStore u).isSome)).map
          (fun u => (u, node.uuid))) ∧
    (∀ p, st.selectedNodes = [] → st.previousNode = some p →
      (getNodeWithUUID st.nodeStore p).isSome = true → p ≠ node.uuid →
      (createNode st node).2.2 = [(p, node.uuid)]) ∧
    (st.selectedNodes = [] → st.previousNode = none →
      (createNode st node).2.2 = []) := by
  have hs := saveNode_proj st node
  have hif : (saveNode st node).2.isMacroNode = false := by
    show (saveNode st node).2.native.isArr = false
    rw [hs.2.1]
    exact hmac
  have hsel1 : (saveNode st node).1.selectedNodes = st.selectedNodes := hs.2.2.1
  have hprev1 : (saveNode st node).1.previousNode = st.previousNode := hs.2.2.2.1
  have hCN := createNode_not_macro st node hif
  refine ⟨?_, ?_, ?_⟩
  · intro hselne
    have hlen : (saveNode st node).1.selectedNodes.length ≠ 0 := by
      rw [hsel1]
      intro hc
      exact hselne (List.length_eq_zero.mp hc)
    rw [hCN]
    simp only [if_pos hlen]
    rw [connectFold_edges st.nodeStore node.uuid _ _ _ _ hs.1
      (fun u => saveNode_isSome st node u)
      (fun v hv => by
        rw [hsel1] at hv
        rcases List.mem_map.mp hv with ⟨w, hw, hww⟩
        have hvw : v = w := (Option.some.inj hww).symm
        subst hvw
        intro he
        rw [he] at hw
        exact hfresh hw)]
    rw [hsel1, filterMap_some_map]
    simp
  · intro p hsel hprev hp hpne
    have hlen : ¬ (saveNode st node).1.selectedNodes.length ≠ 0 := by
      rw [hsel1, hsel]
      simp
    rw [hCN]
    simp only [if_neg hlen]
    rw [hprev1, hprev]
    rw [connectFold_edges st.nodeStore node.uuid _ _ _ _ hs.1
      (fun u => saveNode_isSome st node u)
      (fun v hv => by
        have hvp : v = p := by
          have h' := List.mem_singleton.mp hv
          exact Option.some.inj h'
        subst hvp
        intro he
        exact hpne he)]
    simp [hp]
  · intro hsel hprev
    have hlen : ¬ (saveNode st node).1.selectedNodes.length ≠ 0 := by
      rw [hsel1, hsel]
      simp
    rw [hCN]
    simp only [if_neg hlen]
    rw [hprev1, hprev]
    rw [connectFold_edges st.nodeStore node.uuid _ _ _ _ hs.1
      (fun u => saveNode_isSome st node u)
      (fun v hv => by simp at hv)]
    simp

/-- C2 witness: creating `wNew` with node 2 selected makes the single
edge (2, 9); with an empty selection and previous node 2 it makes the
same edge; with neither, no edge. -/
theorem createNode_default_connection_witness :
    (createNode wStateSel wNew).2.2 = [(2, 9)] ∧
    (createNode wStatePrev wNew).2.2 = [(2, 9)] ∧
    (createNode wStateEmpty wNew).2.2 = [] := by
  have h1 := (createNode_default_connection wStateSel wNew (by rfl) (by decide)).1
    (by decide)
  have h2 := (createNode_default_connection wStatePrev wNew (by rfl) (by decide)).2.1
    2 rfl rfl (by rfl) (by decide)
  have h3 := (createNode_default_connection wStateEmpty wNew (by rfl) (by decide)).2.2
    rfl rfl
  refine ⟨?_, h2, h3⟩
  rw [h1]
  rfl

/-! ### Lookup-table lemmas for `setter` and `setNodeLookup` -/

theorem tableGet_cons (e : String × List Nat) (es : Table) (k : String) :
    tableGet (e :: es) k = if (e.1 == k) = true then some e.2 else tableGet es k := by
  by_cases he : (e.1 == k) = true
  · rw [if_pos he]
    unfold tableGet
    rw [List.find?_cons_of_pos (p := fun x : String × List Nat => x.1 == k) _ he]
    rfl
  · rw [if_neg he]
    unfold tableGet
    rw [List.find?_cons_of_neg (p := fun x : String × List Nat => x.1 == k) _ he]

theorem tableGet_map_update_ne (key k : String) (v : Nat) (h : k ≠ key) :
    ∀ tbl : Table,
      tableGet (tbl.map (fun e => if e.1 == key then (e.1, e.2 ++ [v]) else e)) k =
        tableGet tbl k := by
  intro tbl
  induction tbl with
  | nil => rfl
  | cons e es ih =>
    simp only [List.map_cons]
    rw [tableGet_cons, tableGet_cons]
    by_cases hek : (e.1 == key) = true
    · have hke : (e.1 == k) = false := by
        simp only [beq_eq_false_iff_ne, ne_eq]
        intro hc
        rw [beq_iff_eq] at hek
        exact h (by rw [← hc, hek])
      simp only [hek, if_true, hke, Bool.false_eq_true, if_false]
      exact ih
    · simp only [hek, Bool.false_eq_true, if_false]
      by_cases hke : (e.1 == k) = true
      · simp only [hke, if_true]
      · simp only [hke, Bool.false_eq_true, if_false]
        exact ih

theorem tableGet_map_update_self (key : String) (v : Nat) :
    ∀ (tbl : Table) (l : List Nat), tableGet tbl key = some l →
      tableGet (tbl.map (fun e => if e.1 == key then (e.1, e.2 ++ [v]) else e)) key =
        some (l ++ [v]) := by
  intro tbl
  induction tbl with
  | nil =>
    intro l h
    simp [tableGet] at h
  | cons e es ih =>
    intro l h
    simp only [List.map_cons]
    rw [tableGet_cons] at h
    rw [tableGet_cons]
    by_cases he : (e.1 == key) = true
    · rw [if_pos he] at h
      have hl := Option.some.inj h
      simp only [he, if_true]
      rw [hl]
    · rw [if_neg he] at h
      simp only [he, Bool.false_eq_true, if_false]
      exact ih l h

theorem tableGet_append_of_some {k : String} {l : List Nat} (e : String × List Nat) :
    ∀ tbl : Table, tableGet tbl k = some l → tableGet (tbl ++ [e]) k = some l := by
  intro tbl
  induction tbl with
  | nil =>
    intro h
    simp [tableGet] at h
  | cons f fs ih =>
    intro h
    rw [tableGet_cons] at h
    rw [List.cons_append, tableGet_cons]
    by_cases hf : (f.1 == k) = true
    · rw [if_pos hf] at h ⊢
      exact h
    · rw [if_neg hf] at h ⊢
      exact ih h

theorem tableGet_append_of_none {k : String} (e : String × List Nat) :
    ∀ tbl : Table, tableGet tbl k = none →
      tableGet (tbl ++ [e]) k = (if (e.1 == k) = true then some e.2 else none) := by
  intro tbl
  induction tbl with
  | nil =>
    intro _
    rw [List.nil_append, tableGet_cons]
    rfl
  | cons f fs ih =>
    intro h
    rw [tableGet_cons] at h
    rw [List.cons_append, tableGet_cons]
    by_cases hf : (f.1 == k) = true
    · rw [if_pos hf] at h
      exact Option.noConfusion h
    · rw [if_neg hf] at h ⊢
      exact ih h

theorem tableGet_setter_ne (tbl : Table) (key k : String) (v : Nat) (h : k ≠ key) :
    tableGet (setter tbl key v) k = tableGet tbl k := by
  unfold setter
  by_cases hk : key = ""
  · rw [if_pos hk]
  · rw [if_neg hk]
    cases htg : tableGet tbl key with
    | none =>
      simp only [htg]
      cases htk : tableGet tbl k with
      | some l => exact tableGet_append_of_some _ tbl htk
      | none =>
        rw [tableGet_append_of_none _ tbl htk,
          if_neg (fun hb => h (beq_iff_eq.mp hb).symm)]
    | some l =>
      simp only [htg]
      exact tableGet_map_update_ne key k v h tbl

theorem tableGet_setter_self (tbl : Table) (key : String) (v : Nat) (hk : key ≠ "") :
    tableGet (setter tbl key v) key =
      some (((tableGet tbl key).getD []) ++ [v]) := by
  unfold setter
  rw [if_neg hk]
  cases htg : tableGet tbl key with
  | none =>
    simp only [htg]
    rw [tableGet_append_of_none _ tbl htg, if_pos (by simp)]
    rfl
  | some l =>
    simp only [htg]
    rw [tableGet_map_update_self key v tbl l htg]
    rfl

theorem tableGet_setter_fold_ne (key k : String) (u : Nat) (hk : k ≠ key) :
    ∀ (l : List String) (t0 : Table),
      tableGet (l.foldl (fun t _ => setter t key u) t0) k = tableGet t0 k := by
  intro l
  induction l with
  | nil => intro t0; rfl
  | cons x xs ih =>
    intro t0
    rw [List.foldl_cons, ih, tableGet_setter_ne _ _ _ _ hk]

theorem setNodeLookupId_frame (tbl : Table) (nspace : String) (node : AudioNode)
    (k : String)
    (h1 : ∀ i, node.parameters.settings.id = some i → k ≠ nspace ++ "#" ++ i) :
    tableGet (setNodeLookupId tbl nspace node) k = tableGet tbl k := by
  unfold setNodeLookupId
  cases hi : node.parameters.settings.id with
  | none => rfl
  | some i => exact tableGet_setter_ne _ _ _ _ (h1 i hi)

theorem setNodeLookupClass_frame (tbl : Table) (nspace : String) (node : AudioNode)
    (k : String)
    (h2 : ∀ c, node.parameters.settings.className = some c → k ≠ nspace ++ "." ++ c) :
    tableGet (setNodeLookupClass tbl nspace node) k = tableGet tbl k := by
  unfold setNodeLookupClass
  cases hc : node.parameters.settings.className with
  | none => rfl
  | some c => exact tableGet_setter_fold_ne _ _ _ (h2 c hc) _ _

theorem setNodeLookup_frame (tbl : Table) (nspace : String) (node : AudioNode)
    (k : String)
    (h1 : ∀ i, node.parameters.settings.id = some i → k ≠ nspace ++ "#" ++ i)
    (h2 : ∀ c, node.parameters.settings.className = some c → k ≠ nspace ++ "." ++ c)
    (h3 : k ≠ "*") (h4 : k ≠ nspace ++ node.nodeType) :
    tableGet (setNodeLookup tbl nspace node) k = tableGet tbl k := by
  unfold setNodeLookup
  rw [tableGet_setter_ne _ _ _ _ h4, tableGet_setter_ne _ _ _ _ h3,
    setNodeLookupClass_frame _ _ _ _ h2, setNodeLookupId_frame _ _ _ _ h1]

theorem setNodeLookup_type_entry (tbl : Table) (nspace : String) (node : AudioNode)
    (hk : nspace ++ node.nodeType ≠ "") :
    tableGet (setNodeLookup tbl nspace node) (nspace ++ node.nodeType) =
      some (((tableGet
        (setter (setNodeLookupClass (setNodeLookupId tbl nspace node) nspace node)
          "*" node.uuid)
        (nspace ++ node.nodeType)).getD []) ++ [node.uuid]) := by
  unfold setNodeLookup
  exact tableGet_setter_self _ _ _ hk

theorem mem_clauseResult {tbl : Table} {c : String} {x : Nat}
    (h : x ∈ clauseResult tbl c) :
    ∃ e, tableGet tbl c = some e ∧ x ∈ e := by
  unfold clauseResult at h
  by_cases hc : c ≠ ""
  · rw [if_pos hc] at h
    cases htg : tableGet tbl c with
    | none =>
      simp only [htg] at h
      simp at h
    | some e =>
      simp only [htg] at h
      refine ⟨e, rfl, ?_⟩
      by_cases hcond : getSelectorType c = SelType.idSel ∧ e.length > 1
      · rw [if_pos hcond] at h
        exact List.take_subset _ _ h
      · rw [if_neg hcond] at h
        exact h
  · rw [if_neg hc] at h
    simp at h

theorem mem_getNodesWithSelector_single (tbl : Table) (sel c : String)
    (hsplit : splitComma sel = [c]) (x : Nat) :
    x ∈ getNodesWithSelector tbl sel ↔ x ∈ clauseResult tbl c := by
  have h := (selFold_invariant tbl (splitComma sel) [] [] (fun y => Iff.rfl)
    List.Pairwise.nil List.nodup_nil).2.1 x
  rw [hsplit] at h
  unfold getNodesWithSelector
  rw [hsplit]
  simpa using h

theorem clauseResult_full (tbl : Table) (c : String) (e : List Nat)
    (hc : c ≠ "") (htg : tableGet tbl c = some e)
    (hnid : getSelectorType c ≠ SelType.idSel) :
    clauseResult tbl c = e := by
  unfold clauseResult
  rw [if_pos hc]
  simp only [htg]
  rw [if_neg (fun hcond => hnid hcond.1)]

theorem getCurrentMacroNamespace_single (store : Store) (mU : Nat)
    (mNode : AudioNode) (hm : getNodeWithUUID store mU = some mNode) :
    getCurrentMacroNamespace store [mU] = mNode.nodeType ++ " " := by
  unfold getCurrentMacroNamespace
  rw [List.map_cons, List.map_nil, hm]
  show String.join [mNode.nodeType ++ " "] = mNode.nodeType ++ " "
  simp [String.join]

theorem crackedEnd_nodeLookup (nm : String) (st : CrackedState) :
    (crackedEnd nm st).nodeLookup = st.nodeLookup := by
  unfold crackedEnd
  split
  · split
    · split
      · rfl
      · rfl
    · rfl
  · rfl

/-- C5: a node registered while a macro is recording goes into the lookup
index only under namespace-prefixed keys, so — provided its uuid is fresh
and the bare keys differ from the namespaced keys, which a nonempty
namespace prefix guarantees for sane names — it is invisible to a global
(non-scoped) query for its bare type, `#id` or `.class`, while a query for
the namespace-prefixed type key does return it.  The recording macro's
namespace for a single-macro stack whose macro is named `M` is `"M "`, and
`end` never touches the lookup index, so exactly these facts persist after
`end("M")` — thereafter the node is visible only under the prefixed key. -/
theorem macro_nodes_invisible_until_end (tbl : Table) (nspace : String)
    (node : AudioNode) (i c : String)
    (hid : node.parameters.settings.id = some i)
    (hcls : node.parameters.settings.className = some c)
    (hfresh : ∀ k e, tableGet tbl k = some e → node.uuid ∉ e)
    (hT1 : node.nodeType ≠ nspace ++ "#" ++ i)
    (hT2 : node.nodeType ≠ nspace ++ "." ++ c)
    (hT3 : node.nodeType ≠ "*")
    (hT4 : node.nodeType ≠ nspace ++ node.nodeType)
    (hI1 : "#" ++ i ≠ nspace ++ "#" ++ i)
    (hI2 : "#" ++ i ≠ nspace ++ "." ++ c)
    (hI3 : "#" ++ i ≠ "*")
    (hI4 : "#" ++ i ≠ nspace ++ node.nodeType)
    (hC1 : "." ++ c ≠ nspace ++ "#" ++ i)
    (hC2 : "." ++ c ≠ nspace ++ "." ++ c)
    (hC3 : "." ++ c ≠ "*")
    (hC4 : "." ++ c ≠ nspace ++ node.nodeType)
    (hsT : splitComma node.nodeType = [node.nodeType])
    (hsI : splitComma ("#" ++ i) = ["#" ++ i])
    (hsC : splitComma ("." ++ c) = ["." ++ c])
    (hsP : splitComma (nspace ++ node.nodeType) = [nspace ++ node.nodeType])
    (hPne : nspace ++ node.nodeType ≠ "")
    (hPtype : getSelectorType (nspace ++ node.nodeType) ≠ SelType.idSel) :
    node.uuid ∉ getNodesWithSelector (setNodeLookup tbl nspace node) node.nodeType ∧
    node.uuid ∉ getNodesWithSelector (setNodeLookup tbl nspace node) ("#" ++ i) ∧
    node.uuid ∉ getNodesWithSelector (setNodeLookup tbl nspace node) ("." ++ c) ∧
    node.uuid ∈ getNodesWithSelector (setNodeLookup tbl nspace node)
      (nspace ++ node.nodeType) ∧
    (∀ store mU mNode, getNodeWithUUID store mU = some mNode →
      getCurrentMacroNamespace store [mU] = mNode.nodeType ++ " ") ∧
    (∀ nm st, (crackedEnd nm st).nodeLookup = st.nodeLookup) := by
  have hframe : ∀ k, k ≠ nspace ++ "#" ++ i → k ≠ nspace ++ "." ++ c → k ≠ "*" →
      k ≠ nspace ++ node.nodeType →
      tableGet (setNodeLookup tbl nspace node) k = tableGet tbl k := by
    intro k k1 k2 k3 k4
    refine setNodeLookup_frame tbl nspace node k ?_ ?_ k3 k4
    · intro i' hi'
      rw [hid] at hi'
      exact (Option.some.inj hi') ▸ k1
    · intro c' hc'
      rw [hcls] at hc'
      exact (Option.some.inj hc') ▸ k2
  have hinv : ∀ b, splitComma b = [b] → b ≠ nspace ++ "#" ++ i →
      b ≠ nspace ++ "." ++ c → b ≠ "*" → b ≠ nspace ++ node.nodeType →
      node.uuid ∉ getNodesWithSelector (setNodeLookup tbl nspace node) b := by
    intro b hsb b1 b2 b3 b4 hmem
    rw [mem_getNodesWithSelector_single _ b b hsb] at hmem
    rcases mem_clauseResult hmem with ⟨e, he, hxe⟩
    rw [hframe b b1 b2 b3 b4] at he
    exact hfresh b e he hxe
  refine ⟨hinv _ hsT hT1 hT2 hT3 hT4, hinv _ hsI hI1 hI2 hI3 hI4,
    hinv _ hsC hC1 hC2 hC3 hC4, ?_,
    fun store mU mNode hm => getCurrentMacroNamespace_single store mU mNode hm,
    fun nm st => crackedEnd_nodeLookup nm st⟩
  rw [mem_getNodesWithSelector_single _ _ _ hsP]
  rw [clauseResult_full _ _ _ hPne (setNodeLookup_type_entry tbl nspace node hPne) hPtype]
  exact List.mem_append_right _ (List.mem_singleton.mpr rfl)

/-- C5 witness: registering `wWithId` (type `"sine"`, id `"foo"`, class
`"bar"`, uuid 5) into an empty index under the namespace `"M "` leaves the
bare queries `"sine"`, `"#foo"` and `".bar"` empty of it, while
`"M sine"` finds it. -/
theorem macro_nodes_invisible_until_end_witness :
    (5 : Nat) ∉ getNodesWithSelector (setNodeLookup [] "M " wWithId) "sine" ∧
    (5 : Nat) ∉ getNodesWithSelector (setNodeLookup [] "M " wWithId) "#foo" ∧
    (5 : Nat) ∉ getNodesWithSelector (setNodeLookup [] "M " wWithId) ".bar" ∧
    (5 : Nat) ∈ getNodesWithSelector (setNodeLookup [] "M " wWithId) "M sine" := by
  have h := macro_nodes_invisible_until_end [] "M " wWithId "foo" "bar" rfl rfl
    (fun k e he => by simp [tableGet] at he)
    (by decide) (by decide) (by decide) (by decide)
    (by decide) (by decide) (by decide) (by decide)
    (by decide) (by decide) (by decide) (by decide)
    (by decide) (by decide) (by decide) (by decide)
    (by decide) (by decide)
  exact ⟨h.1, h.2.1, h.2.2.1, h.2.2.2.1⟩
